import Mathlib

/-!
Verification of the jacoco-badge-generator core (src/JacocoBadgeGenerator.py)
against its natural-language specification.

Modelling conventions (shallow embedding):
* Python unbounded integers are `Int` (or `Nat` where the spec quantifies over
  non-negative integers); Python real arithmetic (`/`, `math.ceil`, `int(...)`
  truncation, `"{0:.1f}"` formatting) is modelled exactly over `Rat`.
* Python strings are modelled as `List Char` where character-level manipulation
  matters (path handling, percentage parsing) and as `String` where only whole
  values matter (file names in the report filter, badge labels and colors).
* Python list indexing `l[i]`, which raises `IndexError` when out of range and
  counts from the end for negative `i`, is `pyIndex` returning `Option`.
* `sys.exit(1)` is modelled as `Except.error ()`; functions that can raise an
  uncaught exception return `Option` (with `none` for the raising executions).
* Filesystem existence (`os.path.exists`) is an external collaborator and is
  passed in as an oracle `ex : String → Bool`.
* Reading a CSV file is external text decoding; a report file is modelled as
  its decoded table, a `List (List Int)` of rows of integer fields (the
  `int(...)` conversions of the fields the code reads).
-/

/-- `calculatePercentage` from the source: returns `1` when `missed == 0`,
otherwise `covered / (covered + missed)` (Python true division, modelled
exactly over `Rat`). -/
def calculatePercentage (covered missed : ℤ) : ℚ :=
  if missed = 0 then 1
  else (covered : ℚ) / ((covered : ℚ) + (missed : ℚ))

/-- The four running accumulators of `computeCoverage`. -/
structure Counts where
  missed : ℤ
  covered : ℤ
  missedBranches : ℤ
  coveredBranches : ℤ
deriving DecidableEq, Repr

/-- One loop iteration of `computeCoverage` on a non-header row:
`missed += int(row[3]); covered += int(row[4]); missedBranches += int(row[5]);
coveredBranches += int(row[6])`.  A row with fewer than 7 fields raises
`IndexError` in Python, modelled by `none`. -/
def addRow (acc : Counts) (row : List ℤ) : Option Counts :=
  match row[3]?, row[4]?, row[5]?, row[6]? with
  | some a, some b, some c, some d =>
      some ⟨acc.missed + a, acc.covered + b,
            acc.missedBranches + c, acc.coveredBranches + d⟩
  | _, _, _, _ => none

/-- The inner `for` loop of `computeCoverage` over the non-header rows of one
file, in order. -/
def addRows (acc : Counts) : List (List ℤ) → Option Counts
  | [] => some acc
  | r :: rs =>
      match addRow acc r with
      | none => none
      | some acc2 => addRows acc2 rs

/-- Processing of one file by `computeCoverage`: `enumerate` skips nothing,
but the body only runs for row indices `i > 0`, so the header row (index 0)
is dropped and the remaining rows are accumulated. -/
def processFile (acc : Counts) (file : List (List ℤ)) : Option Counts :=
  match file with
  | [] => some acc
  | _ :: rows => addRows acc rows

/-- The outer `for filename in fileList` loop of `computeCoverage`: the same
accumulators are threaded through every file. -/
def addFiles (acc : Counts) : List (List (List ℤ)) → Option Counts
  | [] => some acc
  | file :: rest =>
      match processFile acc file with
      | none => none
      | some acc2 => addFiles acc2 rest

/-- `computeCoverage` from the source, over the decoded tables of the report
files: accumulate all files into the shared counters, then reduce with
`calculatePercentage` (instructions first, branches second). -/
def computeCoverage (files : List (List (List ℤ))) : Option (ℚ × ℚ) :=
  match addFiles ⟨0, 0, 0, 0⟩ files with
  | none => none
  | some acc =>
      some (calculatePercentage acc.covered acc.missed,
            calculatePercentage acc.coveredBranches acc.missedBranches)

/-- The module-level `colors` palette from the source. -/
def colors : List String :=
  ["#4c1", "#97ca00", "#a4a61d", "#dfb317", "#fe7d37", "#e05d44"]

/-- Python `int(...)` applied to a real value: truncation toward zero. -/
def pyTrunc (q : ℚ) : ℤ := if 0 ≤ q then ⌊q⌋ else ⌈q⌉

/-- Line `coverage = int(1000 * coverage) / 10` of
`badgeCoverageStringColorPair`. -/
def truncOneDecimal (coverage : ℚ) : ℚ := (pyTrunc (1000 * coverage) : ℚ) / 10

/-- Line `c = math.ceil((100 - coverage) / 10)` of
`badgeCoverageStringColorPair`, applied to the truncated coverage. -/
def colorIndexRaw (coverage : ℚ) : ℤ := ⌈(100 - truncOneDecimal coverage) / 10⌉

/-- Lines `if c >= len(colors) : c = len(colors) - 1` of
`badgeCoverageStringColorPair`. -/
def colorIndex (coverage : ℚ) : ℤ :=
  if colorIndexRaw coverage ≥ (colors.length : ℤ) then (colors.length : ℤ) - 1
  else colorIndexRaw coverage

/-- Python `"{0:.1f}".format(t)` for a value `t` that is an exact multiple of
`1/10` (the only values this program formats): integer part, a point, and the
single exact tenths digit. -/
def formatOneDecimal (t : ℚ) : String :=
  let m := pyTrunc (10 * t)
  if m < 0 then "-" ++ toString ((-m) / 10) ++ "." ++ toString ((-m) % 10) ++ "%"
  else toString (m / 10) ++ "." ++ toString (m % 10) ++ "%"

/-- The label half of `badgeCoverageStringColorPair`:
`if coverage - int(coverage) == 0` render `"{0:d}%"` of `int(coverage)`,
else render `"{0:.1f}%"` of the truncated coverage. -/
def badgeLabel (coverage : ℚ) : String :=
  let t := truncOneDecimal coverage
  if t - (pyTrunc t : ℚ) = 0 then toString (pyTrunc t) ++ "%"
  else formatOneDecimal t

/-- Python list indexing `l[i]`: negative indices count from the end, and an
index out of range raises `IndexError` (modelled by `none`). -/
def pyIndex (l : List String) (i : ℤ) : Option String :=
  let j : ℤ := if i < 0 then i + (l.length : ℤ) else i
  if 0 ≤ j then l[j.toNat]? else none

/-- `badgeCoverageStringColorPair` from the source: the formatted label and
the palette entry `colors[c]`. -/
def badgeCoverageStringColorPair (coverage : ℚ) : String × Option String :=
  (badgeLabel coverage, pyIndex colors (colorIndex coverage))

/-! ### Path handling (`formFullPathToFile`), on strings as `List Char` -/

/-- `if len(s) > 1 and s[0:2] == "./" : s = s[2:]` — strips one leading
`"./"` (any string matching the pattern has length at least 2 > 1). -/
def stripDotSlash (s : List Char) : List Char :=
  match s with
  | c1 :: c2 :: rest => if c1 = '.' ∧ c2 = '/' then rest else c1 :: c2 :: rest
  | _ => s

/-- `if len(s) > 0 and s[0] == "/" : s = s[1:]` — the guarded form used for
the directory argument. -/
def stripSlashDir (s : List Char) : List Char :=
  match s with
  | c :: rest => if c = '/' then rest else c :: rest
  | [] => []

/-- `if s[0] == "/" : s = s[1:]` — the unguarded form used for the filename
argument: indexing the empty string raises `IndexError` (`none`). -/
def stripSlashFile (s : List Char) : Option (List Char) :=
  match s with
  | [] => none
  | c :: rest => if c = '/' then some rest else some (c :: rest)

/-- Total companion of `stripSlashFile` (used only to state theorems about
the value it produces on nonempty input). -/
def stripSlashTotal (s : List Char) : List Char :=
  match s with
  | [] => []
  | c :: rest => if c = '/' then rest else c :: rest

/-- `formFullPathToFile` from the source.  The filename is stripped first
(`"./"` then `"/"`, the latter unguarded), then the directory (both strips
guarded); an empty or `"."` directory yields the bare filename; a directory
already ending in `"/"` is joined without a separator; otherwise a single
`"/"` is inserted. -/
def formFullPathToFile (directory filename : List Char) : Option (List Char) :=
  match stripSlashFile (stripDotSlash filename) with
  | none => none
  | some fn =>
      let dir := stripSlashDir (stripDotSlash directory)
      if dir = [] ∨ dir = ['.'] then some fn
      else if dir.getLast? = some '/' then some (dir ++ fn)
      else some (dir ++ '/' :: fn)

/-- Variant of `formFullPathToFile` with the two stripping steps of each
argument applied in the opposite order (first the leading `"/"`, then the
leading `"./"`).  Follows the spec sentence claiming order-independence of
the two stripping steps, for comparison with the source order. -/
def formFullPathToFileSwapped (directory filename : List Char) :
    Option (List Char) :=
  match stripSlashFile filename with
  | none => none
  | some f1 =>
      let fn := stripDotSlash f1
      let dir := stripDotSlash (stripSlashDir directory)
      if dir = [] ∨ dir = ['.'] then some fn
      else if dir.getLast? = some '/' then some (dir ++ fn)
      else some (dir ++ '/' :: fn)

/-- Whether a string begins with `"./"`. -/
def startsDotSlash (s : List Char) : Bool :=
  match s with
  | c1 :: c2 :: _ => c1 = '.' && c2 = '/'
  | _ => false

/-- Whether a string begins with `"/"`. -/
def startsSlash (s : List Char) : Bool :=
  match s with
  | c :: _ => c = '/'
  | [] => false

/-- Whether a string ends with `"/"`. -/
def endsSlash : List Char → Bool
  | [] => false
  | [c] => c = '/'
  | _ :: c :: rest => endsSlash (c :: rest)

/-- Whether a string contains the doubled separator `"//"`. -/
def hasDoubleSlash : List Char → Bool
  | c1 :: c2 :: rest => (c1 = '/' && c2 = '/') || hasDoubleSlash (c2 :: rest)
  | _ => false

/-- A path fragment that does not begin with `"./"` or `"/"` and contains no
`"//"`. -/
def cleanFrag (s : List Char) : Bool :=
  !startsDotSlash s && !startsSlash s && !hasDoubleSlash s

/-- Strings on which the two stripping steps interact: a stripped leading
`"/"` exposing `"./"`, or a stripped leading `"./"` exposing `"/"`. -/
def swapSensitive (s : List Char) : Bool :=
  match s with
  | c1 :: c2 :: c3 :: _ =>
      (c1 = '/' && c2 = '.' && c3 = '/') || (c1 = '.' && c2 = '/' && c3 = '/')
  | _ => false

/-! ### `filterMissingReports`, with filesystem existence as an oracle -/

/-- The `goodReports` accumulation loop of `filterMissingReports`: the input
files that exist, in input order. -/
def goodReports (ex : String → Bool) : List String → List String
  | [] => []
  | f :: fs => if ex f then f :: goodReports ex fs else goodReports ex fs

/-- `filterMissingReports` from the source.  `sys.exit(1)` is
`Except.error ()`: it fires when the surviving list is empty and
`failIfMissing` is set, or when `failIfMissing` is set and some input file
was dropped. -/
def filterMissingReports (ex : String → Bool) (jacocoFileList : List String)
    (failIfMissing : Bool) : Except Unit (List String) :=
  let good := goodReports ex jacocoFileList
  if good.length = 0 ∧ failIfMissing then Except.error ()
  else if failIfMissing ∧ good.length ≠ jacocoFileList.length then
    Except.error ()
  else Except.ok good

/-! ### `stringToPercentage`, with a model of Python `float(...)` -/

/-- Numeric value of a digit string (most significant first). -/
def digitsVal (cs : List Char) : ℕ :=
  cs.foldl (fun a c => 10 * a + (c.toNat - 48)) 0

/-- Mantissa of a Python float literal: `digits [. digits]` or `. digits`,
with at least one digit overall; returns the value and the unconsumed rest. -/
def parseMantissa (cs : List Char) : Option (ℚ × List Char) :=
  let ip := cs.takeWhile Char.isDigit
  let r1 := cs.dropWhile Char.isDigit
  match r1 with
  | '.' :: r2 =>
      let fp := r2.takeWhile Char.isDigit
      let r3 := r2.dropWhile Char.isDigit
      if ip.isEmpty && fp.isEmpty then none
      else some ((digitsVal ip : ℚ) + (digitsVal fp : ℚ) / (10 : ℚ) ^ fp.length, r3)
  | _ => if ip.isEmpty then none else some ((digitsVal ip : ℚ), r1)

/-- Exponent tail after `e`/`E`: optional sign then a nonempty digit run. -/
def parseExpTail (m : ℚ) (r : List Char) : Option ℚ :=
  let sr : ℤ × List Char :=
    match r with
    | '+' :: t => (1, t)
    | '-' :: t => (-1, t)
    | _ => (1, r)
  if sr.2.isEmpty || !(sr.2.all Char.isDigit) then none
  else some (m * (10 : ℚ) ^ (sr.1 * (digitsVal sr.2 : ℤ)))

/-- Optional exponent part of a Python float literal; the remainder must be
fully consumed. -/
def parseExponent (m : ℚ) : List Char → Option ℚ
  | [] => some m
  | 'e' :: r => parseExpTail m r
  | 'E' :: r => parseExpTail m r
  | _ => none

/-- Unsigned Python float literal. -/
def parseUnsignedFloat (cs : List Char) : Option ℚ :=
  match parseMantissa cs with
  | none => none
  | some (m, rest) => parseExponent m rest

/-- Signed Python float literal. -/
def parseSigned : List Char → Option ℚ
  | '+' :: r => parseUnsignedFloat r
  | '-' :: r => (parseUnsignedFloat r).map (fun q => -q)
  | cs => parseUnsignedFloat cs

/-- Python `str.strip()`: remove leading and trailing whitespace. -/
def trimChars (cs : List Char) : List Char :=
  ((cs.dropWhile Char.isWhitespace).reverse.dropWhile Char.isWhitespace).reverse

/-- Python `float(s)` on a finite decimal literal: surrounding whitespace is
ignored, then an optional sign, a mantissa and an optional exponent.  `inf`,
`nan` and underscore digit separators are outside the inputs this program is
specified on and are not modelled; parse failure (`ValueError`) is `none`. -/
def pyFloat (cs : List Char) : Option ℚ := parseSigned (trimChars cs)

/-- `stringToPercentage` from the source.  In the `%` branch `doDivide` is
already `True`, so the later `p > 1` test cannot change the division outcome
and the branch always divides by 100; `float` is applied there to the already
stripped remainder, on which its own whitespace stripping is a no-op. -/
def stringToPercentage (s : List Char) : ℚ :=
  if s.isEmpty then 0
  else if s.getLast? = some '%' then
    if (trimChars s.dropLast).isEmpty then 0
    else
      match parseSigned (trimChars s.dropLast) with
      | none => 0
      | some p => p / 100
  else
    match pyFloat s with
    | none => 0
    | some p => if p > 1 then p / 100 else p

/-- Modelled from the spec's words for `parsePercentageString` (claim C6):
the numeric value of `s` with a trailing `%` stripped, divided by 100, when
`s` ends in `%`; otherwise the bare numeric value, divided by 100 when it
exceeds 1; and 0 for the empty string or a string that fails numeric
parsing.  For comparison with `stringToPercentage`. -/
def stringToPercentageSpecModel (s : List Char) : ℚ :=
  if s.getLast? = some '%' then
    match pyFloat s.dropLast with
    | none => 0
    | some p => p / 100
  else
    match pyFloat s with
    | none => 0
    | some p => if p > 1 then p / 100 else p

/-- Specification-side formulation for claim C2: the sum of the integer
field at 0-indexed column `i` over a list of rows (under the precondition,
stated separately, that every row has at least 7 fields). -/
def colSum (i : ℕ) (rows : List (List ℤ)) : ℤ :=
  (rows.map (fun r => r.getD i 0)).sum

/-- Specification-side formulation for claim C2: all non-header rows of all
files, in order (row index 0 of each file skipped). -/
def allDataRows (files : List (List (List ℤ))) : List (List ℤ) :=
  (files.map (fun f => f.drop 1)).flatten

/-! ## Claim theorems -/

/-- C1: for all non-negative integers `covered` and `missed`,
`calculatePercentage(covered, missed)` returns `covered / (covered + missed)`,
except that when `missed == 0` it returns exactly `1.0` regardless of
`covered` (including `covered == 0`). -/
theorem calculatePercentage_spec (covered missed : ℕ) :
    (missed = 0 → calculatePercentage covered missed = 1) ∧
    (missed ≠ 0 → calculatePercentage covered missed =
      (covered : ℚ) / ((covered : ℚ) + (missed : ℚ))) := by
  constructor
  · intro h
    subst h
    simp [calculatePercentage]
  · intro h
    have h2 : ((missed : ℤ)) ≠ 0 := by exact_mod_cast h
    simp only [calculatePercentage, h2, if_false]
    push_cast
    ring

/-- Witness for C1 at `covered = 5, missed = 0` and `covered = 3, missed = 2`. -/
theorem calculatePercentage_spec_witness :
    calculatePercentage ((5 : ℕ) : ℤ) ((0 : ℕ) : ℤ) = 1 ∧
    calculatePercentage ((3 : ℕ) : ℤ) ((2 : ℕ) : ℤ) =
      ((3 : ℕ) : ℚ) / (((3 : ℕ) : ℚ) + ((2 : ℕ) : ℚ)) :=
  ⟨(calculatePercentage_spec 5 0).1 rfl, (calculatePercentage_spec 3 2).2 (by decide)⟩

/-- C10 counterexample: at `covered = 0, missed = 1` (non-negative, with
`missed > 0`) the result is `0`, which does not lie in the open interval
`(0, 1)`, and increasing `missed` to `2` does not strictly decrease it. -/
theorem calculatePercentage_zero_covered :
    calculatePercentage ((0 : ℕ) : ℤ) ((1 : ℕ) : ℤ) = 0 ∧
    calculatePercentage ((0 : ℕ) : ℤ) ((2 : ℕ) : ℤ) =
      calculatePercentage ((0 : ℕ) : ℤ) ((1 : ℕ) : ℤ) := by
  refine ⟨?_, ?_⟩ <;> simp [calculatePercentage]

/-- C10 amended: for positive (rather than all non-negative) `covered` and
positive `missed`, `calculatePercentage` is strictly decreasing in `missed`,
strictly increasing in `covered`, and lies in the open interval `(0, 1)`. -/
theorem calculatePercentage_strict_mono (covered covered2 missed missed2 : ℕ)
    (hc : 0 < covered) (hm : 0 < missed) :
    (missed < missed2 →
      calculatePercentage covered missed2 < calculatePercentage covered missed) ∧
    (covered < covered2 →
      calculatePercentage covered missed < calculatePercentage covered2 missed) ∧
    0 < calculatePercentage covered missed ∧
    calculatePercentage covered missed < 1 := by
  have hcq : (0 : ℚ) < (covered : ℚ) := by exact_mod_cast hc
  have hmq : (0 : ℚ) < (missed : ℚ) := by exact_mod_cast hm
  have hmz : ((missed : ℤ)) ≠ 0 := by omega
  have hden : (0 : ℚ) < (covered : ℚ) + (missed : ℚ) := by positivity
  have hval : calculatePercentage covered missed =
      (covered : ℚ) / ((covered : ℚ) + (missed : ℚ)) := by
    simp only [calculatePercentage, hmz, if_false]
    push_cast
    ring
  refine ⟨?_, ?_, ?_, ?_⟩
  · intro hlt
    have hm2 : ((missed2 : ℤ)) ≠ 0 := by omega
    have hval2 : calculatePercentage covered missed2 =
        (covered : ℚ) / ((covered : ℚ) + (missed2 : ℚ)) := by
      simp only [calculatePercentage, hm2, if_false]
      push_cast
      ring
    rw [hval, hval2]
    apply div_lt_div_of_pos_left hcq hden
    have : (missed : ℚ) < (missed2 : ℚ) := by exact_mod_cast hlt
    linarith
  · intro hlt
    have hval2 : calculatePercentage covered2 missed =
        (covered2 : ℚ) / ((covered2 : ℚ) + (missed : ℚ)) := by
      simp only [calculatePercentage, hmz, if_false]
      push_cast
      ring
    rw [hval, hval2]
    have hcq2 : (covered : ℚ) < (covered2 : ℚ) := by exact_mod_cast hlt
    rw [div_lt_div_iff₀ hden (by positivity)]
    have := mul_lt_mul_of_pos_right hcq2 hmq
    ring_nf
    nlinarith
  · rw [hval]
    positivity
  · rw [hval]
    rw [div_lt_one hden]
    linarith

/-- Witness for C10's amended theorem at
`covered = 1, covered2 = 2, missed = 1, missed2 = 2`. -/
theorem calculatePercentage_strict_mono_witness :
    calculatePercentage ((1 : ℕ) : ℤ) ((2 : ℕ) : ℤ) <
      calculatePercentage ((1 : ℕ) : ℤ) ((1 : ℕ) : ℤ) ∧
    calculatePercentage ((1 : ℕ) : ℤ) ((1 : ℕ) : ℤ) <
      calculatePercentage ((2 : ℕ) : ℤ) ((1 : ℕ) : ℤ) ∧
    0 < calculatePercentage ((1 : ℕ) : ℤ) ((1 : ℕ) : ℤ) ∧
    calculatePercentage ((1 : ℕ) : ℤ) ((1 : ℕ) : ℤ) < 1 := by
  have h := calculatePercentage_strict_mono 1 2 1 2 (by decide) (by decide)
  exact ⟨h.1 (by decide), h.2.1 (by decide), h.2.2.1, h.2.2.2⟩

/-- The surviving-report loop is `List.filter` of the existence oracle. -/
theorem goodReports_eq_filter (ex : String → Bool) (files : List String) :
    goodReports ex files = files.filter ex := by
  induction files with
  | nil => rfl
  | cons f fs ih =>
      by_cases h : ex f <;> simp [goodReports, List.filter_cons, h, ih]

/-- C9: `filterMissingReports` returns exactly the order-preserving
subsequence of existing files; with `failIfMissing` it signals the fatal exit
exactly when the surviving list is empty or a strict subsequence of the
input, and without `failIfMissing` it returns the surviving files normally. -/
theorem filterMissingReports_spec (ex : String → Bool) (files : List String) :
    (goodReports ex files).Sublist files ∧
    (∀ f, f ∈ goodReports ex files ↔ f ∈ files ∧ ex f = true) ∧
    (filterMissingReports ex files true = Except.error () ↔
      goodReports ex files = [] ∨ goodReports ex files ≠ files) ∧
    filterMissingReports ex files false = Except.ok (goodReports ex files) := by
  have hfil := goodReports_eq_filter ex files
  have hsub : (goodReports ex files).Sublist files := by
    rw [hfil]; exact List.filter_sublist files
  refine ⟨hsub, ?_, ?_, ?_⟩
  · intro f
    rw [hfil]
    simp [List.mem_filter]
  · have hlen : goodReports ex files ≠ files ↔
        (goodReports ex files).length ≠ files.length := by
      constructor
      · intro hne hl
        exact hne (hsub.eq_of_length hl)
      · intro hl he
        exact hl (by rw [he])
    have hnil : goodReports ex files = [] ↔
        (goodReports ex files).length = 0 := by
      simp [List.length_eq_zero]
    rw [filterMissingReports]
    by_cases h1 : (goodReports ex files).length = 0
    · simp only [h1, true_and, if_true]
      simp [hnil, h1]
    · simp only [h1, false_and, if_false]
      by_cases h2 : (goodReports ex files).length = files.length
      · simp only [h2, ne_eq, not_true_eq_false, and_false, if_false]
        constructor
        · intro h; cases h
        · intro h
          rcases h with h | h
          · exact absurd (hnil.mp h) h1
          · exact absurd h2 (hlen.mp h)
      · simp only [ne_eq, h2, not_false_eq_true, and_true, if_true, true_iff]
        right
        exact hlen.mpr h2
  · rw [filterMissingReports]
    simp

/-- A loop body step of `computeCoverage` on a row with at least 7 fields. -/
theorem addRow_of_len (acc : Counts) (r : List ℤ) (h : 7 ≤ r.length) :
    addRow acc r = some ⟨acc.missed + r.getD 3 0, acc.covered + r.getD 4 0,
      acc.missedBranches + r.getD 5 0, acc.coveredBranches + r.getD 6 0⟩ := by
  have h3 : 3 < r.length := by omega
  have h4 : 4 < r.length := by omega
  have h5 : 5 < r.length := by omega
  have h6 : 6 < r.length := by omega
  rw [addRow, List.getElem?_eq_getElem h3, List.getElem?_eq_getElem h4,
      List.getElem?_eq_getElem h5, List.getElem?_eq_getElem h6]
  rw [List.getD_eq_getElem r 0 h3, List.getD_eq_getElem r 0 h4,
      List.getD_eq_getElem r 0 h5, List.getD_eq_getElem r 0 h6]

/-- The inner loop of `computeCoverage` adds the four column sums of its
rows to the accumulators. -/
theorem addRows_spec (rows : List (List ℤ)) :
    ∀ acc : Counts, (∀ r ∈ rows, 7 ≤ r.length) →
      addRows acc rows = some ⟨acc.missed + colSum 3 rows,
        acc.covered + colSum 4 rows, acc.missedBranches + colSum 5 rows,
        acc.coveredBranches + colSum 6 rows⟩ := by
  induction rows with
  | nil =>
      intro acc _
      simp [addRows, colSum]
  | cons r rs ih =>
      intro acc h
      rw [addRows, addRow_of_len acc r (h r (by simp))]
      have h2 := ih (⟨acc.missed + r.getD 3 0, acc.covered + r.getD 4 0,
        acc.missedBranches + r.getD 5 0, acc.coveredBranches + r.getD 6 0⟩ : Counts)
        (fun x hx => h x (by simp [hx]))
      refine h2.trans ?_
      simp only [colSum, List.map_cons, List.sum_cons, Option.some.injEq,
        Counts.mk.injEq]
      refine ⟨by ring, by ring, by ring, by ring⟩

/-- Skipping the header row: the per-file processing is the inner loop over
`file.drop 1`. -/
theorem processFile_eq_drop (acc : Counts) (file : List (List ℤ)) :
    processFile acc file = addRows acc (file.drop 1) := by
  cases file <;> rfl

/-- The outer loop of `computeCoverage` adds the four column sums of all
non-header rows of all files to the accumulators. -/
theorem addFiles_spec (files : List (List (List ℤ))) :
    ∀ acc : Counts, (∀ file ∈ files, ∀ r ∈ file.drop 1, 7 ≤ r.length) →
      addFiles acc files = some ⟨acc.missed + colSum 3 (allDataRows files),
        acc.covered + colSum 4 (allDataRows files),
        acc.missedBranches + colSum 5 (allDataRows files),
        acc.coveredBranches + colSum 6 (allDataRows files)⟩ := by
  induction files with
  | nil =>
      intro acc _
      simp [addFiles, allDataRows, colSum]
  | cons file rest ih =>
      intro acc h
      rw [addFiles, processFile_eq_drop,
        addRows_spec (file.drop 1) acc (h file (by simp))]
      have h3 := ih (⟨acc.missed + colSum 3 (file.drop 1),
        acc.covered + colSum 4 (file.drop 1),
        acc.missedBranches + colSum 5 (file.drop 1),
        acc.coveredBranches + colSum 6 (file.drop 1)⟩ : Counts)
        (fun x hx => h x (by simp [hx]))
      refine h3.trans ?_
      have hcol : ∀ i : ℕ, colSum i (allDataRows (file :: rest)) =
          colSum i (file.drop 1) + colSum i (allDataRows rest) := by
        intro i
        simp [allDataRows, colSum, List.flatten_cons]
      simp only [Option.some.injEq, Counts.mk.injEq, hcol]
      refine ⟨by ring, by ring, by ring, by ring⟩

/-- C2: for report files whose non-header rows all have at least 7 fields,
`computeCoverage` skips row index 0 of each file, sums 0-indexed columns
3, 4, 5, 6 of every remaining row into accumulators shared across all files,
and returns `(calculatePercentage covered missed,
calculatePercentage coveredBranches missedBranches)` of those totals. -/
theorem computeCoverage_spec (files : List (List (List ℤ)))
    (h : ∀ file ∈ files, ∀ r ∈ file.drop 1, 7 ≤ r.length) :
    computeCoverage files =
      some (calculatePercentage (colSum 4 (allDataRows files))
              (colSum 3 (allDataRows files)),
            calculatePercentage (colSum 6 (allDataRows files))
              (colSum 5 (allDataRows files))) := by
  rw [computeCoverage, addFiles_spec files ⟨0, 0, 0, 0⟩ h]
  simp

/-- Witness for C2 on two concrete files (one header and one data row each):
the counts accumulate across both files. -/
theorem computeCoverage_spec_witness :
    computeCoverage [[[], [0, 0, 0, 1, 2, 3, 4]],
        [[9, 9, 9, 9, 9, 9, 9], [0, 0, 0, 2, 3, 1, 0]]] =
      some (calculatePercentage
              (colSum 4 (allDataRows [[[], [0, 0, 0, 1, 2, 3, 4]],
                [[9, 9, 9, 9, 9, 9, 9], [0, 0, 0, 2, 3, 1, 0]]]))
              (colSum 3 (allDataRows [[[], [0, 0, 0, 1, 2, 3, 4]],
                [[9, 9, 9, 9, 9, 9, 9], [0, 0, 0, 2, 3, 1, 0]]])),
            calculatePercentage
              (colSum 6 (allDataRows [[[], [0, 0, 0, 1, 2, 3, 4]],
                [[9, 9, 9, 9, 9, 9, 9], [0, 0, 0, 2, 3, 1, 0]]]))
              (colSum 5 (allDataRows [[[], [0, 0, 0, 1, 2, 3, 4]],
                [[9, 9, 9, 9, 9, 9, 9], [0, 0, 0, 2, 3, 1, 0]]]))) :=
  computeCoverage_spec _ (by decide)

/-- Python `int(...)` is floor on non-negative values. -/
theorem pyTrunc_eq_floor {q : ℚ} (h : 0 ≤ q) : pyTrunc q = ⌊q⌋ := if_pos h

/-- For a non-negative ratio, the truncated percentage is
`⌊1000 * q⌋ / 10`. -/
theorem truncOneDecimal_floor {q : ℚ} (h : 0 ≤ q) :
    truncOneDecimal q = ((⌊1000 * q⌋ : ℤ) : ℚ) / 10 := by
  rw [truncOneDecimal, pyTrunc_eq_floor (by positivity)]

/-- Bounds on `⌊1000 * q⌋` for a ratio in `[0, 1]`. -/
theorem floor1000_bounds {q : ℚ} (h0 : 0 ≤ q) (h1 : q ≤ 1) :
    0 ≤ ⌊1000 * q⌋ ∧ ⌊1000 * q⌋ ≤ 1000 := by
  constructor
  · exact Int.floor_nonneg.mpr (by positivity)
  · calc ⌊1000 * q⌋ ≤ ⌊(1000 : ℚ)⌋ := Int.floor_le_floor (by linarith)
      _ = 1000 := by norm_num

/-- Floor division of an integer cast by the rational `10`. -/
theorem floor_intCast_div_ten (m : ℤ) : ⌊((m : ℚ)) / (10 : ℚ)⌋ = m / (10 : ℤ) := by
  have := Rat.floor_intCast_div_natCast m 10
  norm_num at this
  exact_mod_cast this

/-- The raw tier computation, in terms of `⌊1000 * q⌋`, for `0 ≤ q`. -/
theorem colorIndexRaw_floor {q : ℚ} (h : 0 ≤ q) :
    colorIndexRaw q = ⌈((1000 : ℚ) - (⌊1000 * q⌋ : ℤ)) / 100⌉ := by
  rw [colorIndexRaw, truncOneDecimal_floor h]
  congr 1
  ring

/-- C3: for a ratio in `[0, 1]`, the badge label truncates (never rounds)
the ratio to one decimal place of percentage, `⌊1000 * ratio⌋ / 10`; a whole
truncated value is rendered without a decimal point and any other value with
exactly one decimal digit. -/
theorem badgeLabel_truncation (q : ℚ) (h0 : 0 ≤ q) (h1 : q ≤ 1) :
    truncOneDecimal q = ((⌊1000 * q⌋ : ℤ) : ℚ) / 10 ∧
    ((10 : ℤ) ∣ ⌊1000 * q⌋ →
      (badgeCoverageStringColorPair q).1 = toString (⌊1000 * q⌋ / 10) ++ "%") ∧
    (¬ (10 : ℤ) ∣ ⌊1000 * q⌋ →
      (badgeCoverageStringColorPair q).1 =
        toString (⌊1000 * q⌋ / 10) ++ "." ++ toString (⌊1000 * q⌋ % 10) ++ "%") := by
  have hq : (0 : ℚ) ≤ 1000 * q := by positivity
  have hm0 : 0 ≤ ⌊1000 * q⌋ := Int.floor_nonneg.mpr hq
  have htr : truncOneDecimal q = ((⌊1000 * q⌋ : ℤ) : ℚ) / 10 := truncOneDecimal_floor h0
  have hmQ : (0 : ℚ) ≤ ((⌊1000 * q⌋ : ℤ) : ℚ) := by exact_mod_cast hm0
  have hpt : pyTrunc (((⌊1000 * q⌋ : ℤ) : ℚ) / 10) = ⌊1000 * q⌋ / 10 := by
    rw [pyTrunc_eq_floor (by positivity), floor_intCast_div_ten]
  have hiff : (((⌊1000 * q⌋ : ℤ) : ℚ) / 10 - ((⌊1000 * q⌋ / 10 : ℤ) : ℚ) = 0) ↔
      (10 : ℤ) ∣ ⌊1000 * q⌋ := by
    rw [sub_eq_zero, div_eq_iff (by norm_num : (10 : ℚ) ≠ 0)]
    constructor
    · intro h
      have h2 : ⌊1000 * q⌋ = (⌊1000 * q⌋ / 10) * 10 := by exact_mod_cast h
      exact ⟨⌊1000 * q⌋ / 10, by linarith [h2]⟩
    · rintro ⟨k, hk⟩
      rw [hk]
      rw [Int.mul_ediv_cancel_left k (by norm_num : (10 : ℤ) ≠ 0)]
      push_cast
      ring
  refine ⟨htr, ?_, ?_⟩
  · intro hdvd
    show badgeLabel q = _
    rw [badgeLabel, htr, hpt, if_pos (hiff.mpr hdvd)]
  · intro hdvd
    show badgeLabel q = _
    rw [badgeLabel, htr, hpt, if_neg (fun hc => hdvd (hiff.mp hc))]
    have h10 : (10 : ℚ) * (((⌊1000 * q⌋ : ℤ) : ℚ) / 10) = ((⌊1000 * q⌋ : ℤ) : ℚ) := by
      field_simp
    rw [formatOneDecimal, h10, pyTrunc_eq_floor hmQ, Int.floor_intCast,
      if_neg (by omega : ¬ ⌊1000 * q⌋ < 0)]

/-- Witness for C3 at the spec's example ratios `1.0`, `0.90` and `0.8999`:
labels `"100%"`, `"90%"` and `"89.9%"`. -/
theorem badgeLabel_truncation_witness :
    (badgeCoverageStringColorPair 1).1 = "100%" ∧
    (badgeCoverageStringColorPair (90 / 100 : ℚ)).1 = "90%" ∧
    (badgeCoverageStringColorPair (8999 / 10000 : ℚ)).1 = "89.9%" := by
  refine ⟨?_, ?_, ?_⟩
  · have ha := (badgeLabel_truncation 1 (by norm_num) (by norm_num)).2.1 (by norm_num)
    have hf : ⌊(1000 : ℚ) * 1⌋ = 1000 := by norm_num
    rw [hf] at ha
    exact ha.trans (by decide)
  · have ha := (badgeLabel_truncation (90 / 100) (by norm_num) (by norm_num)).2.1
      (by norm_num)
    have hf : ⌊1000 * (90 / 100 : ℚ)⌋ = 900 := by norm_num
    rw [hf] at ha
    exact ha.trans (by decide)
  · have ha := (badgeLabel_truncation (8999 / 10000) (by norm_num) (by norm_num)).2.2
      (by norm_num)
    have hf : ⌊1000 * (8999 / 10000 : ℚ)⌋ = 899 := by norm_num
    rw [hf] at ha
    exact ha.trans (by decide)

/-- C4 counterexample: the ratio `0.95` has truncated percentage `95 ≥ 90`,
yet selects tier index `1` (the second palette entry), not the best tier
`0`. -/
theorem colorIndex_ninety_not_best :
    truncOneDecimal (95 / 100 : ℚ) = 95 ∧ colorIndex (95 / 100 : ℚ) = 1 := by
  have ht : truncOneDecimal (95 / 100 : ℚ) = 95 := by
    rw [truncOneDecimal, pyTrunc_eq_floor (by norm_num)]
    norm_num
  refine ⟨ht, ?_⟩
  have hraw : colorIndexRaw (95 / 100 : ℚ) = 1 := by
    rw [colorIndexRaw, ht]
    rw [show ((100 : ℚ) - 95) / 10 = 1 / 2 by norm_num]
    rw [Int.ceil_eq_iff]
    constructor <;> norm_num
  rw [colorIndex, hraw]
  norm_num [colors]

/-- C4 amended: a truncated percentage of at least `90` selects one of the
two best tiers (index `0` or `1`), and the best tier (index `0`) exactly
when the truncated percentage is `100`; percentages in `[90, 100)` map to
tier `1`. -/
theorem colorIndex_top_band (q : ℚ) (h0 : 0 ≤ q) (h1 : q ≤ 1)
    (h90 : 90 ≤ truncOneDecimal q) :
    (colorIndex q = 0 ∨ colorIndex q = 1) ∧
    (colorIndex q = 0 ↔ truncOneDecimal q = 100) := by
  have hmb := floor1000_bounds h0 h1
  have htr := truncOneDecimal_floor h0
  have hm900 : 900 ≤ ⌊1000 * q⌋ := by
    rw [htr] at h90
    have h2 : (900 : ℚ) ≤ ((⌊1000 * q⌋ : ℤ) : ℚ) := by
      rw [le_div_iff₀ (by norm_num : (0 : ℚ) < 10)] at h90
      linarith
    exact_mod_cast h2
  have hraw := colorIndexRaw_floor h0
  have hQ1000 : ((⌊1000 * q⌋ : ℤ) : ℚ) ≤ 1000 := by exact_mod_cast hmb.2
  have hQ900 : (900 : ℚ) ≤ ((⌊1000 * q⌋ : ℤ) : ℚ) := by exact_mod_cast hm900
  have hr0 : 0 ≤ colorIndexRaw q := by
    rw [hraw]
    apply Int.ceil_nonneg
    apply div_nonneg _ (by norm_num)
    linarith
  have hr1 : colorIndexRaw q ≤ 1 := by
    rw [hraw]
    apply Int.ceil_le.mpr
    rw [div_le_iff₀ (by norm_num : (0 : ℚ) < 100)]
    push_cast
    linarith
  have hci : colorIndex q = colorIndexRaw q := by
    rw [colorIndex]
    have hlen : ((colors.length : ℕ) : ℤ) = 6 := by simp [colors]
    rw [if_neg]
    rw [hlen]
    omega
  constructor
  · rw [hci]
    omega
  · rw [hci]
    have hiff2 : colorIndexRaw q = 0 ↔ ⌊1000 * q⌋ = 1000 := by
      rw [hraw]
      constructor
      · intro h
        have hle : ((1000 : ℚ) - (⌊1000 * q⌋ : ℤ)) / 100 ≤ 0 := by
          have h2 := Int.ceil_le.mp (le_of_eq h)
          simpa using h2
        rw [div_le_iff₀ (by norm_num : (0 : ℚ) < 100)] at hle
        have h1000 : (1000 : ℤ) ≤ ⌊1000 * q⌋ := by
          have : (1000 : ℚ) ≤ ((⌊1000 * q⌋ : ℤ) : ℚ) := by linarith
          exact_mod_cast this
        omega
      · intro h
        rw [h]
        norm_num
    rw [hiff2, htr]
    constructor
    · intro h
      rw [h]
      norm_num
    · intro h
      rw [div_eq_iff (by norm_num : (10 : ℚ) ≠ 0)] at h
      have : ((⌊1000 * q⌋ : ℤ) : ℚ) = 1000 := by linarith
      exact_mod_cast this

/-- Witness for C4's amended theorem at ratio `0.99` (truncated percentage
`99`, in the band `[90, 100)`). -/
theorem colorIndex_top_band_witness :
    (colorIndex (99 / 100 : ℚ) = 0 ∨ colorIndex (99 / 100 : ℚ) = 1) ∧
    (colorIndex (99 / 100 : ℚ) = 0 ↔ truncOneDecimal (99 / 100 : ℚ) = 100) :=
  colorIndex_top_band (99 / 100) (by norm_num) (by norm_num)
    (by rw [truncOneDecimal, pyTrunc_eq_floor (by norm_num)]; norm_num)

/-- C5: for every ratio in `[0, 1]` the selected tier index is the ceiling
formula clamped to `5`, lies in `[0, 5]`, and indexing the 6-entry palette
with it never raises an out-of-range error. -/
theorem colorIndex_clamped (q : ℚ) (h0 : 0 ≤ q) (h1 : q ≤ 1) :
    colorIndex q = min ⌈((100 : ℚ) - ((⌊1000 * q⌋ : ℤ) : ℚ) / 10) / 10⌉ 5 ∧
    0 ≤ colorIndex q ∧ colorIndex q ≤ 5 ∧
    (pyIndex colors (colorIndex q)).isSome = true := by
  have hmb := floor1000_bounds h0 h1
  have hform : colorIndexRaw q =
      ⌈((100 : ℚ) - ((⌊1000 * q⌋ : ℤ) : ℚ) / 10) / 10⌉ := by
    rw [colorIndexRaw, truncOneDecimal_floor h0]
  have hQ0 : (0 : ℚ) ≤ ((⌊1000 * q⌋ : ℤ) : ℚ) := by exact_mod_cast hmb.1
  have hQ1000 : ((⌊1000 * q⌋ : ℤ) : ℚ) ≤ 1000 := by exact_mod_cast hmb.2
  have hr0 : 0 ≤ colorIndexRaw q := by
    rw [colorIndexRaw_floor h0]
    apply Int.ceil_nonneg
    apply div_nonneg _ (by norm_num)
    linarith
  have hr10 : colorIndexRaw q ≤ 10 := by
    rw [colorIndexRaw_floor h0]
    apply Int.ceil_le.mpr
    rw [div_le_iff₀ (by norm_num : (0 : ℚ) < 100)]
    push_cast
    linarith
  have hlen : ((colors.length : ℕ) : ℤ) = 6 := by simp [colors]
  have hmin : colorIndex q = min (colorIndexRaw q) 5 := by
    rw [colorIndex, hlen]
    split_ifs with h <;> omega
  have hk0 : 0 ≤ colorIndex q := by rw [hmin]; omega
  have hk5 : colorIndex q ≤ 5 := by rw [hmin]; omega
  refine ⟨by rw [hmin, hform], hk0, hk5, ?_⟩
  have hnneg : ¬ colorIndex q < 0 := by omega
  have hlt : (colorIndex q).toNat < colors.length := by
    have h6 : colors.length = 6 := rfl
    omega
  simp only [pyIndex, hnneg, if_false, if_pos hk0]
  rw [List.getElem?_eq_getElem hlt]
  rfl

/-- Witness for C5 at ratio `0.0` (the lowest ratio: clamped to the worst
tier, index `5`, still in bounds). -/
theorem colorIndex_clamped_witness :
    colorIndex 0 = min ⌈((100 : ℚ) - ((⌊(1000 : ℚ) * 0⌋ : ℤ) : ℚ) / 10) / 10⌉ 5 ∧
    0 ≤ colorIndex 0 ∧ colorIndex 0 ≤ 5 ∧
    (pyIndex colors (colorIndex 0)).isSome = true :=
  colorIndex_clamped 0 (by norm_num) (by norm_num)

/-- Evaluation rule for `stringToPercentage` on a non-`%` string whose
numeric parse succeeds. -/
theorem stringToPercentage_bare (s : List Char) (hne : ¬ s.isEmpty = true)
    (hl : ¬ s.getLast? = some '%') (p : ℚ) (hp : pyFloat s = some p) :
    stringToPercentage s = if p > 1 then p / 100 else p := by
  rw [stringToPercentage, if_neg hne, if_neg hl, hp]

/-- Evaluation rule for `stringToPercentage` on a `%`-terminated string whose
numeric parse succeeds. -/
theorem stringToPercentage_percent (s : List Char) (hne : ¬ s.isEmpty = true)
    (hl : s.getLast? = some '%') (htne : ¬ (trimChars s.dropLast).isEmpty = true)
    (p : ℚ) (hp : parseSigned (trimChars s.dropLast) = some p) :
    stringToPercentage s = p / 100 := by
  rw [stringToPercentage, if_neg hne, if_pos hl, if_neg htne, hp]

/-- C6: `stringToPercentage` computes exactly the spec's description — value
of the `%`-stripped string divided by 100 when the string ends in `%`,
otherwise the bare value divided by 100 only when it exceeds 1, with 0 for
the empty string and for parse failures (never an error) — and the three
equivalent forms `"60.2%"`, `"60.2"`, `"0.602"` all map to `0.602`. -/
theorem stringToPercentage_spec_equiv :
    (∀ s : List Char, stringToPercentage s = stringToPercentageSpecModel s) ∧
    stringToPercentage "60.2%".data = stringToPercentage "60.2".data ∧
    stringToPercentage "60.2".data = stringToPercentage "0.602".data ∧
    stringToPercentage "0.602".data = 301 / 500 ∧
    stringToPercentage "".data = 0 ∧
    stringToPercentage "abc".data = 0 := by
  have d60 : (digitsVal ['6', '0'] : ℕ) = 60 := rfl
  have d2 : (digitsVal ['2'] : ℕ) = 2 := rfl
  have d0 : (digitsVal ['0'] : ℕ) = 0 := rfl
  have d602 : (digitsVal ['6', '0', '2'] : ℕ) = 602 := rfl
  have h6021 : stringToPercentage "60.2".data =
      if ((digitsVal ['6', '0'] : ℕ) : ℚ) + ((digitsVal ['2'] : ℕ) : ℚ) / (10 : ℚ) ^ (1 : ℕ) > 1
      then (((digitsVal ['6', '0'] : ℕ) : ℚ) +
        ((digitsVal ['2'] : ℕ) : ℚ) / (10 : ℚ) ^ (1 : ℕ)) / 100
      else ((digitsVal ['6', '0'] : ℕ) : ℚ) +
        ((digitsVal ['2'] : ℕ) : ℚ) / (10 : ℚ) ^ (1 : ℕ) :=
    stringToPercentage_bare _ (by decide) (by decide) _ rfl
  have h6022 : stringToPercentage "60.2".data = 301 / 500 := by
    rw [h6021, d60, d2, if_pos (by norm_num)]
    norm_num
  have hpc : stringToPercentage "60.2%".data =
      (((digitsVal ['6', '0'] : ℕ) : ℚ) +
        ((digitsVal ['2'] : ℕ) : ℚ) / (10 : ℚ) ^ (1 : ℕ)) / 100 :=
    stringToPercentage_percent _ (by decide) (by decide) (by decide) _ rfl
  have hpc2 : stringToPercentage "60.2%".data = 301 / 500 := by
    rw [hpc, d60, d2]
    norm_num
  have h06021 : stringToPercentage "0.602".data =
      if ((digitsVal ['0'] : ℕ) : ℚ) + ((digitsVal ['6', '0', '2'] : ℕ) : ℚ) / (10 : ℚ) ^ (3 : ℕ) > 1
      then (((digitsVal ['0'] : ℕ) : ℚ) +
        ((digitsVal ['6', '0', '2'] : ℕ) : ℚ) / (10 : ℚ) ^ (3 : ℕ)) / 100
      else ((digitsVal ['0'] : ℕ) : ℚ) +
        ((digitsVal ['6', '0', '2'] : ℕ) : ℚ) / (10 : ℚ) ^ (3 : ℕ) :=
    stringToPercentage_bare _ (by decide) (by decide) _ rfl
  have h06022 : stringToPercentage "0.602".data = 301 / 500 := by
    rw [h06021, d0, d602, if_neg (by norm_num)]
    norm_num
  refine ⟨?_, hpc2.trans h6022.symm, h6022.trans h06022.symm, h06022, rfl, rfl⟩
  intro s
  cases s with
  | nil => rfl
  | cons c cs =>
      by_cases hl : (c :: cs).getLast? = some '%'
      · rw [stringToPercentage, stringToPercentageSpecModel]
        simp only [List.isEmpty_cons, Bool.false_eq_true, if_false]
        rw [if_pos hl, if_pos hl]
        simp only [pyFloat]
        rcases htt : trimChars (c :: cs).dropLast with _ | ⟨d, ds⟩
        · rfl
        · rfl
      · rw [stringToPercentage, stringToPercentageSpecModel]
        simp only [List.isEmpty_cons, Bool.false_eq_true, if_false]
        rw [if_neg hl, if_neg hl]

/-- A successful unguarded slash strip produces the total companion's
value. -/
theorem stripSlashFile_some {s x : List Char} (h : stripSlashFile s = some x) :
    x = stripSlashTotal s := by
  cases s with
  | nil => simp [stripSlashFile] at h
  | cons c t =>
      by_cases hc : c = '/' <;>
        simp [stripSlashFile, stripSlashTotal, hc] at h ⊢ <;> exact h.symm

/-- The unguarded slash strip raises exactly on the empty string. -/
theorem stripSlashFile_eq_none {s : List Char} :
    stripSlashFile s = none ↔ s = [] := by
  cases s with
  | nil => simp [stripSlashFile]
  | cons c t => by_cases hc : c = '/' <;> simp [stripSlashFile, hc]

/-- `startsDotSlash` only looks at the first two characters. -/
theorem startsDotSlash_append {a : List Char} (b : List Char)
    (h : 2 ≤ a.length) : startsDotSlash (a ++ b) = startsDotSlash a := by
  rcases a with _ | ⟨c1, _ | ⟨c2, t⟩⟩
  · simp at h
  · simp at h
  · simp [startsDotSlash]

/-- `startsSlash` only looks at the first character. -/
theorem startsSlash_append {a : List Char} (b : List Char)
    (h : 1 ≤ a.length) : startsSlash (a ++ b) = startsSlash a := by
  rcases a with _ | ⟨c, t⟩
  · simp at h
  · simp [startsSlash]

/-- Unfolding rule for `hasDoubleSlash` on a cons cell. -/
theorem hasDoubleSlash_cons (c : Char) (l : List Char) :
    hasDoubleSlash (c :: l) =
      ((c = '/' && startsSlash l) || hasDoubleSlash l) := by
  cases l with
  | nil => simp [hasDoubleSlash, startsSlash]
  | cons d t => simp [hasDoubleSlash, startsSlash]

/-- `endsSlash` agrees with `getLast?`. -/
theorem endsSlash_iff {l : List Char} :
    endsSlash l = true ↔ l.getLast? = some '/' := by
  induction l with
  | nil => simp [endsSlash]
  | cons c t ih =>
      cases t with
      | nil => simp [endsSlash]
      | cons d t2 =>
          rw [show endsSlash (c :: d :: t2) = endsSlash (d :: t2) from rfl,
            List.getLast?_cons_cons]
          exact ih

/-- A doubled slash in a concatenation is a doubled slash in a part or a
slash meeting at the junction. -/
theorem hasDoubleSlash_append (a b : List Char) :
    hasDoubleSlash (a ++ b) = true ↔
      (hasDoubleSlash a = true ∨ hasDoubleSlash b = true ∨
        (endsSlash a = true ∧ startsSlash b = true)) := by
  induction a with
  | nil => simp [hasDoubleSlash, endsSlash]
  | cons c t ih =>
      rw [List.cons_append, hasDoubleSlash_cons, hasDoubleSlash_cons]
      cases t with
      | nil =>
          simp only [List.nil_append, hasDoubleSlash, endsSlash,
            Bool.or_eq_true, Bool.and_eq_true, decide_eq_true_eq]
          tauto
      | cons d t2 =>
          rw [startsSlash_append b (by simp)]
          simp only [Bool.or_eq_true, Bool.and_eq_true, decide_eq_true_eq, ih,
            show endsSlash (c :: d :: t2) = endsSlash (d :: t2) from rfl]
          tauto

/-- Joining a clean directory with a clean filename, the way
`formFullPathToFile` does, yields a clean path. -/
theorem joinParts (D F : List Char)
    (hD : startsDotSlash D = false ∧ startsSlash D = false ∧
      hasDoubleSlash D = false)
    (hF : startsDotSlash F = false ∧ startsSlash F = false ∧
      hasDoubleSlash F = false)
    (p : List Char)
    (hp : (if D = [] ∨ D = ['.'] then some F
           else if D.getLast? = some '/' then some (D ++ F)
           else some (D ++ '/' :: F)) = some p) :
    startsDotSlash p = false ∧ startsSlash p = false ∧
      hasDoubleSlash p = false := by
  split_ifs at hp with h1 h2
  · injection hp with hh
    subst hh
    exact hF
  · injection hp with hh
    subst hh
    push_neg at h1
    have hDslash : startsSlash D = false := hD.2.1
    have hlen2 : 2 ≤ D.length := by
      rcases D with _ | ⟨c, _ | ⟨c2, t⟩⟩
      · exact absurd rfl h1.1
      · have hc : c = '/' := by simpa using h2
        subst hc
        simp [startsSlash] at hDslash
      · simp
    refine ⟨?_, ?_, ?_⟩
    · rw [startsDotSlash_append F hlen2]
      exact hD.1
    · rw [startsSlash_append F (by omega)]
      exact hD.2.1
    · rw [Bool.eq_false_iff]
      rw [ne_eq, hasDoubleSlash_append]
      push_neg
      refine ⟨by simp [hD.2.2], by simp [hF.2.2], fun _ => by simp [hF.2.1]⟩
  · injection hp with hh
    subst hh
    push_neg at h1
    refine ⟨?_, ?_, ?_⟩
    · rcases D with _ | ⟨c, _ | ⟨c2, t⟩⟩
      · exact absurd rfl h1.1
      · have hc : ¬ c = '.' := by
          intro hc
          subst hc
          exact h1.2 rfl
        simp [startsDotSlash, hc]
      · rw [startsDotSlash_append ('/' :: F) (by simp)]
        exact hD.1
    · rcases D with _ | ⟨c, t⟩
      · exact absurd rfl h1.1
      · rw [startsSlash_append ('/' :: F) (by simp)]
        exact hD.2.1
    · rw [Bool.eq_false_iff]
      rw [ne_eq, hasDoubleSlash_append]
      push_neg
      have hend : ¬ endsSlash D = true := by
        rw [endsSlash_iff]
        exact h2
      refine ⟨by simp [hD.2.2], ?_, fun he => absurd he hend⟩
      rw [hasDoubleSlash_cons]
      simp [hF.2.1, hF.2.2]

/-- C7 counterexample: with directory `""` and filename `"././x"` the output
is `"./x"`, which begins with `"./"` (only one leading `"./"` is ever
stripped). -/
theorem formFullPathToFile_relative_output :
    formFullPathToFile "".data "././x".data = some "./x".data ∧
    startsDotSlash "./x".data = true := by decide

/-- C7 amended: the output of `formFullPathToFile` never begins with `"./"`
or `"/"` and never contains `"//"`, provided the directory and filename
still have those three properties after their own leading-`"./"` and
leading-`"/"` strips (the function strips only one such prefix from each
argument and never rewrites their interiors). -/
theorem formFullPathToFile_clean (d f : List Char)
    (hf : cleanFrag (stripSlashTotal (stripDotSlash f)) = true)
    (hd : cleanFrag (stripSlashDir (stripDotSlash d)) = true) :
    ∀ p, formFullPathToFile d f = some p →
      startsDotSlash p = false ∧ startsSlash p = false ∧
        hasDoubleSlash p = false := by
  intro p hp
  rw [formFullPathToFile] at hp
  rcases hsf : stripSlashFile (stripDotSlash f) with _ | fn
  · rw [hsf] at hp
    cases hp
  · rw [hsf] at hp
    have hfn : fn = stripSlashTotal (stripDotSlash f) := stripSlashFile_some hsf
    subst hfn
    have hF : startsDotSlash (stripSlashTotal (stripDotSlash f)) = false ∧
        startsSlash (stripSlashTotal (stripDotSlash f)) = false ∧
        hasDoubleSlash (stripSlashTotal (stripDotSlash f)) = false := by
      have h' : (startsDotSlash (stripSlashTotal (stripDotSlash f)) = false ∧
          startsSlash (stripSlashTotal (stripDotSlash f)) = false) ∧
          hasDoubleSlash (stripSlashTotal (stripDotSlash f)) = false := by
        simpa [cleanFrag, Bool.and_eq_true, Bool.not_eq_true'] using hf
      exact ⟨h'.1.1, h'.1.2, h'.2⟩
    have hD : startsDotSlash (stripSlashDir (stripDotSlash d)) = false ∧
        startsSlash (stripSlashDir (stripDotSlash d)) = false ∧
        hasDoubleSlash (stripSlashDir (stripDotSlash d)) = false := by
      have h' : (startsDotSlash (stripSlashDir (stripDotSlash d)) = false ∧
          startsSlash (stripSlashDir (stripDotSlash d)) = false) ∧
          hasDoubleSlash (stripSlashDir (stripDotSlash d)) = false := by
        simpa [cleanFrag, Bool.and_eq_true, Bool.not_eq_true'] using hd
      exact ⟨h'.1.1, h'.1.2, h'.2⟩
    exact joinParts _ _ hD hF p hp

/-- Witness for C7's amended theorem at directory `"./badges/"` and filename
`"./cov.svg"`: the output `"badges/cov.svg"` is clean. -/
theorem formFullPathToFile_clean_witness :
    startsDotSlash "badges/cov.svg".data = false ∧
    startsSlash "badges/cov.svg".data = false ∧
    hasDoubleSlash "badges/cov.svg".data = false :=
  formFullPathToFile_clean "./badges/".data "./cov.svg".data (by decide)
    (by decide) "badges/cov.svg".data (by decide)

/-- The two stripping steps commute on a string that does not begin with
`"/./"` or `".//"` (guarded slash strip, as for the directory argument). -/
theorem dirSwap (s : List Char) (h : swapSensitive s = false) :
    stripSlashDir (stripDotSlash s) = stripDotSlash (stripSlashDir s) := by
  rcases s with _ | ⟨c1, _ | ⟨c2, _ | ⟨c3, t⟩⟩⟩
  · rfl
  · by_cases h1 : c1 = '/' <;> simp [stripDotSlash, stripSlashDir, h1]
  · by_cases hA : c1 = '.' ∧ c2 = '/'
    · obtain ⟨rfl, rfl⟩ := hA
      decide
    · by_cases hB : c1 = '/'
      · subst hB
        have h1 : ¬ ((('/' : Char) = '.') ∧ c2 = '/') := by simp
        simp [stripDotSlash, stripSlashDir, h1]
      · simp [stripDotSlash, stripSlashDir, hA, hB]
  · by_cases hA : c1 = '.' ∧ c2 = '/'
    · obtain ⟨rfl, rfl⟩ := hA
      have hc3 : ¬ c3 = '/' := by
        intro hc
        subst hc
        simp [swapSensitive] at h
      simp [stripDotSlash, stripSlashDir, hc3]
    · by_cases hB : c1 = '/'
      · subst hB
        have hBC : ¬ (c2 = '.' ∧ c3 = '/') := by
          rintro ⟨rfl, rfl⟩
          simp [swapSensitive] at h
        have h1 : ¬ ((('/' : Char) = '.') ∧ c2 = '/') := by simp
        simp [stripDotSlash, stripSlashDir, h1, hBC]
      · simp [stripDotSlash, stripSlashDir, hA, hB]

/-- The two stripping steps of the filename commute, as `Option` values,
when the `"./"`-stripped filename is nonempty and the filename does not
begin with `"/./"` or `".//"`. -/
theorem fileSwap (f : List Char) (hne : stripDotSlash f ≠ [])
    (h : swapSensitive f = false) :
    stripSlashFile (stripDotSlash f) = (stripSlashFile f).map stripDotSlash := by
  rcases f with _ | ⟨c1, _ | ⟨c2, _ | ⟨c3, t⟩⟩⟩
  · exact absurd rfl hne
  · by_cases h1 : c1 = '/' <;>
      simp [stripDotSlash, stripSlashFile, h1]
  · by_cases hA : c1 = '.' ∧ c2 = '/'
    · obtain ⟨rfl, rfl⟩ := hA
      exact absurd (by decide) hne
    · by_cases hB : c1 = '/'
      · subst hB
        have h1 : ¬ ((('/' : Char) = '.') ∧ c2 = '/') := by simp
        simp [stripDotSlash, stripSlashFile, h1]
      · simp [stripDotSlash, stripSlashFile, hA, hB]
  · by_cases hA : c1 = '.' ∧ c2 = '/'
    · obtain ⟨rfl, rfl⟩ := hA
      have hc3 : ¬ c3 = '/' := by
        intro hc
        subst hc
        simp [swapSensitive] at h
      simp [stripDotSlash, stripSlashFile, hc3]
    · by_cases hB : c1 = '/'
      · subst hB
        have hBC : ¬ (c2 = '.' ∧ c3 = '/') := by
          rintro ⟨rfl, rfl⟩
          simp [swapSensitive] at h
        have h1 : ¬ ((('/' : Char) = '.') ∧ c2 = '/') := by simp
        simp [stripDotSlash, stripSlashFile, h1, hBC]
      · simp [stripDotSlash, stripSlashFile, hA, hB]

/-- C8 counterexample: `formFullPathToFile` fails (unhandled `IndexError`)
on the empty filename, so it is not total; and swapping the order of the two
stripping steps changes the result on the filename `"/./x"`. -/
theorem formFullPathToFile_order_dependent :
    formFullPathToFile "d".data "".data = none ∧
    formFullPathToFile "d".data "/./x".data ≠
      formFullPathToFileSwapped "d".data "/./x".data := by decide

/-- C8 amended: `formFullPathToFile` is pure, and returns a result exactly
when the filename still has a character after the `"./"` strip (it fails on
`""` and `"./"`); and the two stripping steps applied in the opposite order
give the same path whenever neither argument begins with `"/./"` or
`".//"` (and the filename is in the returning domain). -/
theorem formFullPathToFile_total_and_swap (d f : List Char) :
    ((formFullPathToFile d f).isSome = true ↔ stripDotSlash f ≠ []) ∧
    (stripDotSlash f ≠ [] → swapSensitive f = false → swapSensitive d = false →
      formFullPathToFile d f = formFullPathToFileSwapped d f) := by
  constructor
  · rw [formFullPathToFile]
    rcases hsf : stripSlashFile (stripDotSlash f) with _ | fn
    · rw [stripSlashFile_eq_none] at hsf
      simp [hsf]
    · have hne : stripDotSlash f ≠ [] := by
        intro hh
        rw [hh] at hsf
        simp [stripSlashFile] at hsf
      refine ⟨fun _ => hne, fun _ => ?_⟩
      dsimp only
      split_ifs <;> rfl
  · intro hne hf hd
    rw [formFullPathToFile, formFullPathToFileSwapped, fileSwap f hne hf,
      dirSwap d hd]
    rcases hsf : stripSlashFile f with _ | f1
    · rfl
    · rfl

/-- Witness for C8's amended theorem at directory `"badges"` and filename
`"./cov"`. -/
theorem formFullPathToFile_total_and_swap_witness :
    ((formFullPathToFile "badges".data "./cov".data).isSome = true ↔
      stripDotSlash "./cov".data ≠ []) ∧
    formFullPathToFile "badges".data "./cov".data =
      formFullPathToFileSwapped "badges".data "./cov".data :=
  ⟨(formFullPathToFile_total_and_swap "badges".data "./cov".data).1,
   (formFullPathToFile_total_and_swap "badges".data "./cov".data).2
     (by decide) (by decide) (by decide)⟩
